import Mathlib

/-!
Verification of the HTTP reverse-proxy labs
(`chapter_03_network/03_proxy/lab_06_reverse_proxy/src/main.rs` and
`chapter_03_network/03_proxy/lab_05_reverse_proxy/solution/main.rs`).

Bytes are modelled as `Nat` (ASCII codes).  A TCP read stream is modelled
as a list of read events (`Rd`): a successful read returning a chunk of
bytes, or an I/O error; the end of the list corresponds to `read`
returning `Ok(0)` (end of stream).  All functions are direct translations
of the Rust source; definitions that follow the specification's words
instead are explicitly marked.
-/

/-- ASCII codes of a string literal. -/
def ascii (s : String) : List Nat := s.data.map (fun ch => ch.toNat)

/-- The two-byte line separator `\r\n`. -/
def CRLF : List Nat := [13, 10]

/-- The four-byte header terminator `\r\n\r\n`. -/
def TERM4 : List Nat := [13, 10, 13, 10]

/-- The 4-byte window of `l` at position `p` equals the header terminator
(counterpart of `request.windows(4)` comparing with `b"\r\n\r\n"`). -/
def matchAt (l : List Nat) (p : Nat) : Prop := (l.drop p).take 4 = TERM4

/-- Position of the first `\r\n\r\n` window
(`buf.windows(4).position(|w| w == b"\r\n\r\n")`). -/
def findTerm : List Nat → Option Nat
  | [] => none
  | b :: rest =>
      if (b :: rest).take 4 = TERM4 then some 0
      else (findTerm rest).map (fun x => x + 1)

/-- Position of the first `\r\n` window (`request_str.find("\r\n")`). -/
def findCRLF : List Nat → Option Nat
  | [] => none
  | b :: rest =>
      if (b :: rest).take 2 = CRLF then some 0
      else (findCRLF rest).map (fun x => x + 1)

/-- Splitting on the two-byte separator `\r\n`, exactly as Rust's
`str::split("\r\n")`: leftmost non-overlapping occurrences, empty
segments kept. -/
def splitCRLF : List Nat → List (List Nat)
  | [] => [[]]
  | 13 :: 10 :: rest => [] :: splitCRLF rest
  | b :: rest =>
      match splitCRLF rest with
      | [] => [[b]]
      | l :: ls => (b :: l) :: ls

/-- Splitting on a one-byte separator, as Rust's `str::split(':')`. -/
def splitOnByte (sep : Nat) : List Nat → List (List Nat)
  | [] => [[]]
  | b :: rest =>
      if b = sep then [] :: splitOnByte sep rest
      else
        match splitOnByte sep rest with
        | [] => [[b]]
        | l :: ls => (b :: l) :: ls

/-- ASCII lowercasing of one byte (`u8::to_ascii_lowercase`). -/
def asciiLower (c : Nat) : Nat := if 65 ≤ c ∧ c ≤ 90 then c + 32 else c

/-- ASCII lowercasing of a byte string (`str::to_ascii_lowercase`). -/
def lowerStr (l : List Nat) : List Nat := l.map asciiLower

/-- Pattern matched by the header rewriter, lowercased. -/
def XFFPAT : List Nat := ascii "x-forwarded-for:"

/-- Pattern matched by the framers when looking for the length header. -/
def CLPAT : List Nat := ascii "content-length:"

/-- `line.to_ascii_lowercase().starts_with("x-forwarded-for:")`. -/
def isXff (line : List Nat) : Bool := XFFPAT.isPrefixOf (lowerStr line)

/-- `line.to_ascii_lowercase().starts_with("content-length:")`. -/
def isCLline (line : List Nat) : Bool := CLPAT.isPrefixOf (lowerStr line)

/-- ASCII whitespace recognised by `str::trim` (the Unicode set restricted
to single bytes). -/
def isWsByte (c : Nat) : Bool := c = 32 || (9 ≤ c && c ≤ 13)

/-- `str::trim` on a byte string. -/
def trimAscii (l : List Nat) : List Nat :=
  ((l.dropWhile isWsByte).reverse.dropWhile isWsByte).reverse

/-- `str::parse::<usize>()`: an optional leading `+`, then decimal digits,
rejecting the empty string, other characters, and values that overflow a
64-bit `usize`. -/
def parseUsize (s : List Nat) : Option Nat :=
  let t := match s with
    | 43 :: rest => rest
    | _ => s
  if t = [] then none
  else if t.all (fun c => 48 ≤ c && c ≤ 57) then
    let v := t.foldl (fun a d => a * 10 + (d - 48)) 0
    if v < 2 ^ 64 then some v else none
  else none

/-- One step of the `Content-Length` scan of `read_request`: every
matching header line overwrites the accumulator with
`v.trim().parse().unwrap_or(0)`. -/
def clStep0 (acc : Nat) (line : List Nat) : Nat :=
  if isCLline line then
    match (splitOnByte 58 line).get? 1 with
    | some v => (parseUsize (trimAscii v)).getD 0
    | none => acc
  else acc

/-- Declared `Content-Length` of a header block in `read_request`
(request direction): defaults to `0` when absent or unparsable. -/
def contentLengthOrZero (head : List Nat) : Nat :=
  (splitCRLF head).foldl clStep0 0

/-- One step of the `Content-Length` scan of `forward_request`: every
matching header line overwrites the accumulator with
`v.trim().parse().ok()`. -/
def clStepOpt (acc : Option Nat) (line : List Nat) : Option Nat :=
  if isCLline line then
    match (splitOnByte 58 line).get? 1 with
    | some v => parseUsize (trimAscii v)
    | none => acc
  else acc

/-- Declared `Content-Length` of a header block in `forward_request`
(response direction): `None` when absent or unparsable. -/
def contentLengthOpt (head : List Nat) : Option Nat :=
  (splitCRLF head).foldl clStepOpt none

/-- A header line whose `Content-Length` value (the text between the
first and second colon, trimmed) does not parse as a `usize`. -/
def clParseFails (line : List Nat) : Bool :=
  match (splitOnByte 58 line).get? 1 with
  | some v => (parseUsize (trimAscii v)).isNone
  | none => true

/-- The separator inserted between the old value and the client address. -/
def commaSpace : List Nat := [44, 32]

/-- A fresh `X-Forwarded-For` header line for a client address. -/
def xffLine (addr : List Nat) : List Nat := ascii "X-Forwarded-For: " ++ addr

/-- Rejoining header lines, each followed by `\r\n` (the shape of the
output buffer built by `add_x_forwarded_for`). -/
def joinCRLF (ls : List (List Nat)) : List Nat :=
  (ls.map (fun l => l ++ CRLF)).flatten

/-- Line-level description of the rewrite performed by
`add_x_forwarded_for`: the first line matching `x-forwarded-for:`
(case-insensitively) gets `", " ++ addr` appended to it, all other lines
are kept byte-for-byte; when no line matches, one fresh
`X-Forwarded-For: addr` line is appended at the end. -/
def rewriteLines (addr : List Nat) : List (List Nat) → List (List Nat)
  | [] => [xffLine addr]
  | l :: ls =>
      if isXff l then (l ++ commaSpace ++ addr) :: ls
      else l :: rewriteLines addr ls

/-- One step of the fold inside `add_x_forwarded_for`: the `added` flag
records whether an existing header was already augmented. -/
def xffStep (addr : List Nat) (acc : List Nat × Bool) (line : List Nat) :
    List Nat × Bool :=
  if !acc.2 && isXff line then
    (acc.1 ++ line ++ commaSpace ++ addr ++ CRLF, true)
  else (acc.1 ++ line ++ CRLF, acc.2)

/-- `add_x_forwarded_for` from lab 6: split the request at the first
`\r\n\r\n`, rewrite the header lines, re-emit the terminator and the
untouched body. -/
def addXForwardedFor (request clientAddr : List Nat) : List Nat :=
  match findTerm request with
  | none => request
  | some endIdx =>
      let head := request.take endIdx
      let bodyWithDelim := request.drop endIdx
      let r := (splitCRLF head).foldl (xffStep clientAddr) ([], false)
      let out := if r.2 then r.1 else r.1 ++ xffLine clientAddr ++ CRLF
      out ++ CRLF ++ bodyWithDelim.drop 4

/-- `add_forwarded_header` from the lab 5 solution: both branches of its
`if rest.to_lowercase().contains("x-forwarded-for:")` produce the same
bytes, inserting a fresh header right after the first line and leaving
any existing `X-Forwarded-For` header untouched. -/
def lab05AddForwardedHeader (request clientAddr : List Nat) : List Nat :=
  match findCRLF request with
  | none => request
  | some pos =>
      let firstLine := request.take (pos + 2)
      let rest := request.drop (pos + 2)
      if XFFPAT.isPrefixOf (lowerStr rest) ||
          (lowerStr rest).tails.any (fun t => XFFPAT.isPrefixOf t) then
        firstLine ++ xffLine clientAddr ++ CRLF ++ rest
      else
        firstLine ++ xffLine clientAddr ++ CRLF ++ rest

/-- One read event on a TCP stream: a successful read returning a chunk
of bytes (`Ok(n)` filling `n` bytes of the 1024-byte buffer; `data []`
is `Ok(0)`), or an I/O error.  The end of the event list models a peer
that has closed its side (every further read returns `Ok(0)`). -/
inductive Rd where
  | data (bs : List Nat)
  | ioErr

/-- Bytes carried by one read event. -/
def evBytes : Rd → List Nat
  | .data bs => bs
  | .ioErr => []

/-- All bytes carried by a stream of read events. -/
def concatData (evs : List Rd) : List Nat := (evs.map evBytes).flatten

/-- A read event that delivers at least one byte. -/
def goodEv : Rd → Bool
  | .data (_ :: _) => true
  | _ => false

/-- An error-free stream made only of non-empty chunks. -/
def GoodData (evs : List Rd) : Prop := ∀ ev ∈ evs, goodEv ev = true

instance decidableGoodData (evs : List Rd) : Decidable (GoodData evs) :=
  List.decidableBAll (fun ev => goodEv ev = true) evs

/-- Header-accumulation loop of `read_request`: grow the buffer until it
contains `\r\n\r\n`; `Ok(0)`, an I/O error, or a buffer larger than
64 KiB all abort with no message. -/
def rrHeader : List Nat → List Rd → Option (List Nat × List Rd)
  | _, [] => none
  | _, Rd.ioErr :: _ => none
  | _, Rd.data [] :: _ => none
  | buf, Rd.data (b :: bs) :: rest =>
      let buf2 := buf ++ b :: bs
      if 64 * 1024 < buf2.length then none
      else
        match findTerm buf2 with
        | some _ => some (buf2, rest)
        | none => rrHeader buf2 rest

/-- Body-accumulation loop shared by `read_request` and the
`Content-Length` branch of `forward_request`: keep reading while the
buffer is shorter than `expected`; `Ok(0)` stops with the partial buffer,
an I/O error aborts.  A whole chunk is appended even when it extends past
`expected`. -/
def bodyLoop : List Nat → Nat → List Rd → Option (List Nat)
  | buf, expected, evs =>
      if buf.length < expected then
        match evs with
        | [] => some buf
        | Rd.ioErr :: _ => none
        | Rd.data [] :: _ => some buf
        | Rd.data (b :: bs) :: rest => bodyLoop (buf ++ b :: bs) expected rest
      else some buf

/-- `read_request` from lab 6: frame one client request. -/
def readRequest (evs : List Rd) : Option (List Nat) :=
  match rrHeader [] evs with
  | none => none
  | some (buf, rest) =>
      match findTerm buf with
      | none => none
      | some endIdx =>
          let cl := contentLengthOrZero (buf.take endIdx)
          bodyLoop buf (endIdx + 4 + cl) rest

/-- Outcome of the header-accumulation loop inside `forward_request`. -/
inductive HdrOut where
  | early (buf : List Nat)
  | ioFail
  | found (buf : List Nat) (rest : List Rd)

/-- Header-accumulation loop of `forward_request` (response direction):
unlike `rrHeader`, `Ok(0)` and a buffer larger than 64 KiB both return
the bytes collected so far as the complete response; only an I/O error
aborts. -/
def fwdHeader : List Nat → List Rd → HdrOut
  | buf, [] => .early buf
  | _, Rd.ioErr :: _ => .ioFail
  | buf, Rd.data [] :: _ => .early buf
  | buf, Rd.data (b :: bs) :: rest =>
      let buf2 := buf ++ b :: bs
      if 64 * 1024 < buf2.length then .early buf2
      else
        match findTerm buf2 with
        | some _ => .found buf2 rest
        | none => fwdHeader buf2 rest

/-- Close-delimited draining (`while let Ok(n) = read`): accumulate data
chunks until `Ok(0)`, an error, or the end of the stream. -/
def drainData : List Rd → List Nat
  | Rd.data (b :: bs) :: rest => (b :: bs) ++ drainData rest
  | _ => []

/-- Response-reading part of `forward_request` from lab 6. -/
def fwdReadResponse (evs : List Rd) : Option (List Nat) :=
  match fwdHeader [] evs with
  | .ioFail => none
  | .early buf => some buf
  | .found buf rest =>
      match findTerm buf with
      | none => none
      | some endIdx =>
          match contentLengthOpt (buf.take endIdx) with
          | some len => bodyLoop buf (endIdx + 4 + len) rest
          | none => some (buf ++ drainData rest)

/-- The fixed backend pool of both labs. -/
def BACKENDS : List String := ["127.0.0.1:8081", "127.0.0.1:8082"]

/-- `next_backend_with_count`: `fetch_add` returns the old counter value,
the backend is `pool[count % pool.len()]`, and both the returned request
count and the new shared counter are `count + 1`.  The result pairs
`(backend, count + 1)` with the new counter value. -/
def nextBackendWithCount (pool : List String) (counter : Nat) :
    (String × Nat) × Nat :=
  let count := counter
  let idx := count % pool.length
  ((pool.getD idx "", count + 1), count + 1)

/-- The backend chosen when the shared counter holds `c`. -/
def backendAt (pool : List String) (c : Nat) : String :=
  pool.getD (c % pool.length) ""

/-- Backends returned by `n` consecutive selector calls, threading the
shared counter. -/
def selectN (pool : List String) : Nat → Nat → List String
  | _, 0 => []
  | c, n + 1 =>
      (nextBackendWithCount pool c).1.1 ::
        selectN pool (nextBackendWithCount pool c).2 n

/-- The bytes lab 6 writes to the client when `forward_request` fails. -/
def gateway502 : List Nat :=
  ascii "HTTP/1.1 502 Bad Gateway\r\nContent-Length: 11\r\n\r\nBad Gateway"

/-- Decimal rendering of a natural number (Rust's `{}` for `usize`). -/
def natToDec (n : Nat) : List Nat := (Nat.toDigits 10 n).map (fun ch => ch.toNat)

/-- Reason phrase chosen by `error_response` in the lab 5 solution. -/
def errorReason (status : Nat) : List Nat :=
  if status = 502 then ascii "Bad Gateway"
  else if status = 503 then ascii "Service Unavailable"
  else ascii "Error"

/-- `error_response` from the lab 5 solution. -/
def errorResponse (status : Nat) (message : List Nat) : List Nat :=
  ascii "HTTP/1.1 " ++ natToDec status ++ ascii " " ++ errorReason status ++
    ascii "\r\nContent-Type: text/plain\r\nContent-Length: " ++
    natToDec message.length ++
    ascii "\r\nConnection: close\r\n\r\n" ++ message

/-- Modelled from the spec: the verbatim shape of the synthesized failure
response given in §6,
`HTTP/1.1 502 Bad Gateway\r\nContent-Type: text/plain\r\nContent-Length: <N>\r\nConnection: close\r\n\r\n<message>`
with `<N>` the decimal byte length of `<message>`. -/
def specGatewayShape (message : List Nat) : List Nat :=
  ascii "HTTP/1.1 502 Bad Gateway\r\nContent-Type: text/plain\r\nContent-Length: " ++
    (natToDec message.length ++
      (ascii "\r\nConnection: close\r\n\r\n" ++ message))

/-- Outcome of the backend side of one proxied exchange: whether the
connect succeeds, whether writing the request succeeds, and the stream of
read events produced by the backend. -/
structure NetEnv where
  connectOk : Bool
  writeOk : Bool
  respEvs : List Rd

/-- Observable outcome of `handle_client`: the selected backend with its
request count (if selection was reached), the bytes fully delivered to
the backend (if any), the bytes written back to the client, and the final
value of the shared round-robin counter. -/
structure HandleOut where
  selected : Option (String × Nat)
  sentToBackend : Option (List Nat)
  written : List Nat
  counter : Nat

/-- `forward_request` from lab 6 against a backend environment: connect,
rewrite the request, write it, then read the response.  Returns the bytes
delivered to the backend and the response (`none` models a
`ForwardError`). -/
def forwardRequest (req clientAddr : List Nat) (env : NetEnv) :
    Option (List Nat) × Option (List Nat) :=
  if env.connectOk = false then (none, none)
  else
    let forwarded := addXForwardedFor req clientAddr
    if env.writeOk = false then (none, none)
    else (some forwarded, fwdReadResponse env.respEvs)

/-- `handle_client` from lab 6: frame the request (silently closing on
no message), select a backend, forward, and write either the response or
the fixed 502 message back to the client. -/
def handleClient (pool : List String) (clientAddr : List Nat)
    (counter : Nat) (clientEvs : List Rd) (env : NetEnv) : HandleOut :=
  match readRequest clientEvs with
  | none => ⟨none, none, [], counter⟩
  | some req =>
      let sel := nextBackendWithCount pool counter
      let fr := forwardRequest req clientAddr env
      match fr.2 with
      | none => ⟨some sel.1, fr.1, gateway502, sel.2⟩
      | some resp => ⟨some sel.1, fr.1, resp, sel.2⟩

/-- One read event for the lab 5 response loop, which wraps every read in
a 500 ms timeout: a chunk of data, an I/O error, or a timeout. -/
inductive Rd5 where
  | data (bs : List Nat)
  | ioErr
  | timeOut

/-- Response-accumulation loop of the lab 5 `forward_request`: `Ok(0)`,
an error, and a timeout all break out of the loop keeping the bytes
collected so far. -/
def lab05Collect (acc : List Nat) : List Rd5 → List Nat
  | [] => acc
  | Rd5.data [] :: _ => acc
  | Rd5.data (b :: bs) :: rest => lab05Collect (acc ++ b :: bs) rest
  | Rd5.ioErr :: _ => acc
  | Rd5.timeOut :: _ => acc

/-- Bytes of the longest leading run of non-empty data events. -/
def dataLead : List Rd5 → List Nat
  | Rd5.data (b :: bs) :: rest => (b :: bs) ++ dataLead rest
  | _ => []

/-- Lab 5 `forward_request`, read side: after the loop, an empty buffer
is a `ForwardError` (`None`), a non-empty one is the response. -/
def lab05ForwardRead (evs : List Rd5) : Option (List Nat) :=
  let r := lab05Collect [] evs
  if r.isEmpty then none else some r

/-- Concrete request without a `Content-Length` and without an
`X-Forwarded-For` header. -/
def reqPlain : List Nat := ascii "GET / HTTP/1.1\r\n\r\n"

/-- Concrete request carrying an `X-Forwarded-For` header. -/
def reqXff : List Nat :=
  ascii "GET / HTTP/1.1\r\nX-Forwarded-For: 10.0.0.1\r\n\r\n"

/-- The client address used in the spec's examples. -/
def addrA : List Nat := ascii "192.168.1.5"

/-- Concrete request declaring 5 body bytes of which only 2 arrive. -/
def reqShort : List Nat :=
  ascii "POST / HTTP/1.1\r\nContent-Length: 5\r\n\r\nab"

/-- Concrete complete POST request with a 2-byte body. -/
def reqPost : List Nat :=
  ascii "POST / HTTP/1.1\r\nContent-Length: 2\r\n\r\nhi"

/-- Concrete complete backend response with a 2-byte body. -/
def respOk : List Nat :=
  ascii "HTTP/1.1 200 OK\r\nContent-Length: 2\r\n\r\nok"

/-- Concrete request whose `Content-Length` value is not a number. -/
def reqBadCL : List Nat :=
  ascii "GET / HTTP/1.1\r\nContent-Length: abc\r\n\r\n"

/-- A single 64 KiB + 1 chunk with no header terminator. -/
def bigChunk : List Nat := 97 :: List.replicate (64 * 1024) 97

/-! ### Properties of the terminator search -/

theorem matchAt_cons (b : Nat) (l : List Nat) (p : Nat) :
    matchAt (b :: l) (p + 1) ↔ matchAt l p := by
  simp [matchAt]

theorem findTerm_eq_some_iff :
    ∀ (l : List Nat) (e : Nat),
      findTerm l = some e ↔ (matchAt l e ∧ ∀ p, p < e → ¬ matchAt l p) := by
  intro l
  induction l with
  | nil =>
      intro e
      constructor
      · intro h; simp [findTerm] at h
      · rintro ⟨hm, -⟩
        simp [matchAt, TERM4] at hm
  | cons b rest ih =>
      intro e
      by_cases h : (b :: rest).take 4 = TERM4
      · constructor
        · intro he
          simp only [findTerm, if_pos h] at he
          cases he
          refine ⟨by simpa [matchAt] using h, ?_⟩
          intro p hp
          omega
        · rintro ⟨hm, hall⟩
          have he0 : e = 0 := by
            by_contra hne
            exact hall 0 (Nat.pos_of_ne_zero hne) (by simpa [matchAt] using h)
          subst he0
          have h' : b :: List.take 3 rest = TERM4 := by simpa using h
          simp [findTerm, h']
      · constructor
        · intro he
          simp only [findTerm, if_neg h, Option.map_eq_some'] at he
          obtain ⟨e', he', rfl⟩ := he
          obtain ⟨hm, hall⟩ := (ih e').1 he'
          refine ⟨(matchAt_cons b rest e').2 hm, ?_⟩
          intro p hp
          cases p with
          | zero => simpa [matchAt] using h
          | succ q =>
              intro hc
              exact hall q (by omega) ((matchAt_cons b rest q).1 hc)
        · rintro ⟨hm, hall⟩
          cases e with
          | zero =>
              exact absurd (by simpa [matchAt] using hm) h
          | succ e' =>
              have hr : findTerm rest = some e' := by
                refine (ih e').2 ⟨(matchAt_cons b rest e').1 hm, ?_⟩
                intro q hq hc
                exact hall (q + 1) (by omega) ((matchAt_cons b rest q).2 hc)
              have h' : ¬ b :: List.take 3 rest = TERM4 := by simpa using h
              simp [findTerm, h', hr]

theorem findTerm_eq_none_iff :
    ∀ l : List Nat, findTerm l = none ↔ ∀ p, ¬ matchAt l p := by
  intro l
  induction l with
  | nil =>
      constructor
      · intro _ p hm
        simp [matchAt, TERM4] at hm
      · intro _
        simp [findTerm]
  | cons b rest ih =>
      by_cases h : (b :: rest).take 4 = TERM4
      · constructor
        · intro he
          have h' : b :: List.take 3 rest = TERM4 := by simpa using h
          simp [findTerm, h'] at he
        · intro hall
          exact absurd (by simpa [matchAt] using h) (hall 0)
      · constructor
        · intro he p
          simp only [findTerm, if_neg h, Option.map_eq_none'] at he
          cases p with
          | zero => simpa [matchAt] using h
          | succ q =>
              intro hc
              exact (ih.1 he q) ((matchAt_cons b rest q).1 hc)
        · intro hall
          have hr : findTerm rest = none :=
            ih.2 (fun q hc => hall (q + 1) ((matchAt_cons b rest q).2 hc))
          have h' : ¬ b :: List.take 3 rest = TERM4 := by simpa using h
          simp [findTerm, h', hr]

theorem matchAt_length {l : List Nat} {p : Nat} (h : matchAt l p) :
    p + 4 ≤ l.length := by
  unfold matchAt at h
  have h4 : ((l.drop p).take 4).length = 4 := by rw [h]; rfl
  simp only [List.length_take, List.length_drop] at h4
  have := min_eq_left_iff.mp h4
  omega

theorem matchAt_take {l : List Nat} {k p : Nat} (h : p + 4 ≤ k) :
    matchAt (l.take k) p ↔ matchAt l p := by
  unfold matchAt
  rw [List.drop_take, List.take_take, Nat.min_eq_left (by omega : 4 ≤ k - p)]

theorem matchAt_take_bound {l : List Nat} {k p : Nat} (h : matchAt (l.take k) p) :
    p + 4 ≤ k ∧ matchAt l p := by
  have hlen := matchAt_length h
  simp only [List.length_take] at hlen
  have hk : p + 4 ≤ k := le_trans hlen (min_le_left _ _)
  exact ⟨hk, (matchAt_take hk).1 h⟩

theorem findTerm_take_eq {l : List Nat} {e k : Nat} (hf : findTerm l = some e)
    (hk : e + 4 ≤ k) : findTerm (l.take k) = some e := by
  obtain ⟨hm, hall⟩ := (findTerm_eq_some_iff l e).1 hf
  refine (findTerm_eq_some_iff _ e).2 ⟨(matchAt_take hk).2 hm, ?_⟩
  intro p hp hc
  exact hall p hp (matchAt_take_bound hc).2

theorem findTerm_take_none {l : List Nat} {e k : Nat} (hf : findTerm l = some e)
    (hk : k < e + 4) : findTerm (l.take k) = none := by
  obtain ⟨hm, hall⟩ := (findTerm_eq_some_iff l e).1 hf
  refine (findTerm_eq_none_iff _).2 (fun p hc => ?_)
  obtain ⟨hpk, hml⟩ := matchAt_take_bound hc
  rcases lt_trichotomy p e with h1 | h1 | h1
  · exact hall p h1 hml
  · omega
  · omega

theorem findTerm_none_take {l : List Nat} {k : Nat} (hf : findTerm l = none) :
    findTerm (l.take k) = none :=
  (findTerm_eq_none_iff _).2 (fun p hc =>
    (findTerm_eq_none_iff l).1 hf p (matchAt_take_bound hc).2)

theorem findTerm_length {l : List Nat} {e : Nat} (hf : findTerm l = some e) :
    e + 4 ≤ l.length :=
  matchAt_length ((findTerm_eq_some_iff l e).1 hf).1

/-! ### Round-robin selector -/

theorem selectN_eq_map (pool : List String) :
    ∀ (n c : Nat),
      selectN pool c n = (List.range n).map (fun i => backendAt pool (c + i)) := by
  intro n
  induction n with
  | zero => intro c; simp [selectN]
  | succ m ih =>
      intro c
      rw [selectN, List.range_succ_eq_map, List.map_cons, List.map_map]
      have h1 : (nextBackendWithCount pool c).1.1 = backendAt pool (c + 0) := by
        simp [nextBackendWithCount, backendAt]
      have h2 : (nextBackendWithCount pool c).2 = c + 1 := rfl
      rw [h1, h2, ih (c + 1)]
      congr 1
      apply List.map_congr_left
      intro a _
      simp only [Function.comp_apply]
      congr 1
      omega

theorem selectN_rotate (pool : List String) (c : Nat) (hne : pool ≠ []) :
    selectN pool c pool.length = pool.rotate c := by
  have hpos : 0 < pool.length := List.length_pos.2 hne
  rw [selectN_eq_map]
  apply List.ext_getElem
  · simp
  · intro i h1 h2
    simp only [List.getElem_map, List.getElem_range]
    rw [List.getElem_rotate]
    unfold backendAt
    rw [List.getD_eq_getElem _ _ (Nat.mod_lt _ hpos)]
    congr 1
    rw [Nat.add_comm]

theorem selectN_count_one (pool : List String) (c : Nat) (hne : pool ≠ [])
    (hnd : pool.Nodup) (a : String) (ha : a ∈ pool) :
    (selectN pool c pool.length).count a = 1 := by
  rw [selectN_rotate pool c hne, (List.rotate_perm pool c).count_eq]
  exact List.count_eq_one_of_mem hnd ha

theorem selectN_add (pool : List String) :
    ∀ (m n c : Nat),
      selectN pool c (m + n) = selectN pool c m ++ selectN pool (c + m) n := by
  intro m
  induction m with
  | zero => intro n c; simp [selectN]
  | succ k ih =>
      intro n c
      have hmn : k + 1 + n = (k + n) + 1 := by omega
      rw [hmn, selectN, selectN, List.cons_append]
      have h2 : (nextBackendWithCount pool c).2 = c + 1 := rfl
      rw [h2, ih n (c + 1)]
      have h3 : c + 1 + k = c + (k + 1) := by omega
      rw [h3]

theorem selectN_count_cycles (pool : List String) (hne : pool ≠ [])
    (hnd : pool.Nodup) (a : String) (ha : a ∈ pool) :
    ∀ (k c : Nat), (selectN pool c (k * pool.length)).count a = k := by
  intro k
  induction k with
  | zero => intro c; simp [selectN]
  | succ j ih =>
      intro c
      have hsplit : (j + 1) * pool.length = pool.length + j * pool.length := by ring
      rw [hsplit, selectN_add, List.count_append,
        selectN_count_one pool c hne hnd a ha, ih (c + pool.length)]
      omega

/-- C1: for every pool of distinct backend addresses and every starting
value of the shared counter, `pool.length` consecutive selector calls
return the pool rotated to start at `counter % pool.length` — i.e. each
backend exactly once, in declared cyclic order, with no repeats. -/
theorem c1_round_robin_cycle (pool : List String) (c : Nat)
    (hne : pool ≠ []) (hnd : pool.Nodup) :
    selectN pool c pool.length = pool.rotate c ∧
      ∀ a ∈ pool, (selectN pool c pool.length).count a = 1 :=
  ⟨selectN_rotate pool c hne, fun a ha => selectN_count_one pool c hne hnd a ha⟩

/-- Witness for C1 at the concrete pool of the labs, counter starting
at 3. -/
theorem c1_round_robin_cycle_witness :
    selectN BACKENDS 3 BACKENDS.length = BACKENDS.rotate 3 ∧
      ∀ a ∈ BACKENDS, (selectN BACKENDS 3 BACKENDS.length).count a = 1 :=
  c1_round_robin_cycle BACKENDS 3 (by decide) (by decide)

/-- C9: concurrency is modelled by atomicity of `fetch_add`: the `N`
concurrent callers receive the `N` distinct counter values
`c, c + 1, …, c + N - 1` in some arbitrary order (`order` is any
permutation of `range N`).  Whatever that order, when `N = k * pool.length`
every backend of a distinct pool is chosen exactly `k` times. -/
theorem c9_concurrent_split (pool : List String) (hne : pool ≠ [])
    (hnd : pool.Nodup) (c k : Nat) (order : List Nat)
    (hperm : order.Perm (List.range (k * pool.length)))
    (a : String) (ha : a ∈ pool) :
    (order.map (fun t => backendAt pool (c + t))).count a = k := by
  rw [(hperm.map (fun t => backendAt pool (c + t))).count_eq,
    ← selectN_eq_map pool (k * pool.length) c]
  exact selectN_count_cycles pool hne hnd a ha k c

/-- Witness for C9: 50 calls in reversed arrival order over the 2-backend
pool split 25/25. -/
theorem c9_concurrent_split_witness :
    (((List.range 50).reverse).map
        (fun t => backendAt BACKENDS (7 + t))).count "127.0.0.1:8081" = 25 :=
  c9_concurrent_split BACKENDS (by decide) (by decide) 7 25
    (List.range 50).reverse (List.reverse_perm _) "127.0.0.1:8081" (by decide)

/-! ### Header rewriter -/

theorem joinCRLF_nil : joinCRLF [] = [] := rfl

theorem joinCRLF_cons (l : List Nat) (ls : List (List Nat)) :
    joinCRLF (l :: ls) = l ++ CRLF ++ joinCRLF ls := by
  simp [joinCRLF]

theorem joinCRLF_append (a b : List (List Nat)) :
    joinCRLF (a ++ b) = joinCRLF a ++ joinCRLF b := by
  simp [joinCRLF]

theorem foldl_xffStep_true (addr : List Nat) :
    ∀ (ls : List (List Nat)) (acc : List Nat),
      ls.foldl (xffStep addr) (acc, true) = (acc ++ joinCRLF ls, true) := by
  intro ls
  induction ls with
  | nil => intro acc; simp [joinCRLF]
  | cons l ls ih =>
      intro acc
      rw [List.foldl_cons]
      have hstep : xffStep addr (acc, true) l = (acc ++ (l ++ CRLF), true) := by
        simp [xffStep, List.append_assoc]
      rw [hstep, ih]
      rw [joinCRLF_cons]
      simp [List.append_assoc]

theorem foldl_xffStep_false (addr : List Nat) :
    ∀ (ls : List (List Nat)) (acc : List Nat),
      ls.foldl (xffStep addr) (acc, false) =
        if ls.any isXff then (acc ++ joinCRLF (rewriteLines addr ls), true)
        else (acc ++ joinCRLF ls, false) := by
  intro ls
  induction ls with
  | nil => intro acc; simp [joinCRLF]
  | cons l ls ih =>
      intro acc
      rw [List.foldl_cons]
      by_cases hx : isXff l = true
      · have hstep : xffStep addr (acc, false) l =
            (acc ++ (l ++ commaSpace ++ addr ++ CRLF), true) := by
          simp [xffStep, hx, List.append_assoc]
        rw [hstep, foldl_xffStep_true addr ls]
        have hany : (l :: ls).any isXff = true := by simp [hx]
        rw [if_pos hany]
        have hrw : rewriteLines addr (l :: ls) = (l ++ commaSpace ++ addr) :: ls := by
          simp [rewriteLines, hx]
        rw [hrw, joinCRLF_cons]
        simp [List.append_assoc]
      · have hxf : isXff l = false := by
          cases h : isXff l
          · rfl
          · exact absurd h hx
        have hstep : xffStep addr (acc, false) l = (acc ++ (l ++ CRLF), false) := by
          simp [xffStep, hxf, List.append_assoc]
        rw [hstep, ih]
        have hrw : rewriteLines addr (l :: ls) = l :: rewriteLines addr ls := by
          simp [rewriteLines, hxf]
        by_cases ha : ls.any isXff = true
        · have hany : (l :: ls).any isXff = true := by simp [ha]
          rw [if_pos ha, if_pos hany, hrw, joinCRLF_cons]
          simp [List.append_assoc]
        · have haf : ls.any isXff = false := by
            cases h : ls.any isXff
            · rfl
            · exact absurd h ha
          have hany : (l :: ls).any isXff = false := by simp [hxf, haf]
          rw [if_neg (by simp [haf]), if_neg (by simp [hany])]
          rw [joinCRLF_cons]
          simp [List.append_assoc]

theorem rewriteLines_no_match (addr : List Nat) :
    ∀ ls : List (List Nat), ls.any isXff = false →
      rewriteLines addr ls = ls ++ [xffLine addr] := by
  intro ls
  induction ls with
  | nil => intro _; simp [rewriteLines]
  | cons l ls ih =>
      intro h
      simp only [List.any_cons, Bool.or_eq_false_iff] at h
      simp [rewriteLines, h.1, ih h.2]

theorem rewriteLines_ne_nil (addr : List Nat) :
    ∀ ls : List (List Nat), rewriteLines addr ls ≠ [] := by
  intro ls
  cases ls with
  | nil => simp [rewriteLines]
  | cons l ls =>
      by_cases h : isXff l = true <;> simp [rewriteLines, h]

/-- The byte-level rewriter equals the line-level description: split the
header block at the first terminator into `\r\n`-separated lines, apply
`rewriteLines`, rejoin, and keep the terminator and body untouched. -/
theorem addXFF_eq (request addr : List Nat) {e : Nat}
    (hterm : findTerm request = some e) :
    addXForwardedFor request addr =
      joinCRLF (rewriteLines addr (splitCRLF (request.take e))) ++ CRLF ++
        request.drop (e + 4) := by
  unfold addXForwardedFor
  rw [hterm]
  simp only []
  rw [foldl_xffStep_false]
  by_cases ha : (splitCRLF (request.take e)).any isXff = true
  · rw [ha]
    simp [List.drop_drop, List.append_assoc]
  · rw [Bool.not_eq_true] at ha
    rw [ha]
    rw [rewriteLines_no_match addr _ ha, joinCRLF_append, joinCRLF_cons, joinCRLF_nil]
    simp [List.drop_drop, List.append_assoc]

/-- C2: the lab 6 rewriter `add_x_forwarded_for` satisfies the claim.
For every framed request (terminator at `e`) the output is the rejoin of
`rewriteLines` over the header lines: when a line matches
`x-forwarded-for:` case-insensitively, the first such line becomes
`line ++ ", " ++ addr` (value = existing value, comma-space, client
address) and every other line is kept byte-for-byte in order; when none
matches, exactly the single new header `X-Forwarded-For: addr` is
appended; terminator and body are untouched.  The last conjunct records
the lab 5 bug: at the spec's own example input, `add_forwarded_header`
inserts a second `X-Forwarded-For` header instead of merging the value,
contradicting the comment in its own source. -/
theorem c2_xff_rewrite (request addr : List Nat) (e : Nat)
    (hterm : findTerm request = some e) :
    (addXForwardedFor request addr =
      joinCRLF (rewriteLines addr (splitCRLF (request.take e))) ++ CRLF ++
        request.drop (e + 4)) ∧
    (∀ ls : List (List Nat), ls.any isXff = false →
      rewriteLines addr ls = ls ++ [xffLine addr]) ∧
    (∀ (l : List Nat) (ls : List (List Nat)), isXff l = true →
      rewriteLines addr (l :: ls) = (l ++ commaSpace ++ addr) :: ls) ∧
    lab05AddForwardedHeader reqXff addrA =
      ascii "GET / HTTP/1.1\r\nX-Forwarded-For: 192.168.1.5\r\nX-Forwarded-For: 10.0.0.1\r\n\r\n" := by
  refine ⟨addXFF_eq request addr hterm, rewriteLines_no_match addr, ?_, by decide⟩
  intro l ls h
  simp [rewriteLines, h]

/-- Witness for C2 at the spec's example request and client address. -/
theorem c2_xff_rewrite_witness :
    (addXForwardedFor reqXff addrA =
      joinCRLF (rewriteLines addrA (splitCRLF (reqXff.take 41))) ++ CRLF ++
        reqXff.drop (41 + 4)) ∧
    (∀ ls : List (List Nat), ls.any isXff = false →
      rewriteLines addrA ls = ls ++ [xffLine addrA]) ∧
    (∀ (l : List Nat) (ls : List (List Nat)), isXff l = true →
      rewriteLines addrA (l :: ls) = (l ++ commaSpace ++ addrA) :: ls) ∧
    lab05AddForwardedHeader reqXff addrA =
      ascii "GET / HTTP/1.1\r\nX-Forwarded-For: 192.168.1.5\r\nX-Forwarded-For: 10.0.0.1\r\n\r\n" :=
  c2_xff_rewrite reqXff addrA 41 (by decide)

/-! ### Body and start-line preservation -/

theorem splitCRLF_ne_nil (l : List Nat) : splitCRLF l ≠ [] := by
  induction l using splitCRLF.induct with
  | case1 => simp [splitCRLF]
  | case2 rest ih => simp [splitCRLF]
  | case3 b rest h hnil ih => exact absurd hnil ih
  | case4 b rest h l' ls hcons ih =>
      rw [splitCRLF.eq_3 b rest h, hcons]
      simp

theorem joinCRLF_term :
    ∀ ls : List (List Nat), ls ≠ [] → ∃ hd, joinCRLF ls ++ CRLF = hd ++ TERM4 := by
  intro ls
  induction ls with
  | nil => intro h; exact absurd rfl h
  | cons l ls ih =>
      intro _
      cases ls with
      | nil =>
          refine ⟨l, ?_⟩
          rw [joinCRLF_cons, joinCRLF_nil]
          simp [CRLF, TERM4, List.append_assoc]
      | cons m ms =>
          obtain ⟨hd, hh⟩ := ih (by simp)
          refine ⟨l ++ CRLF ++ hd, ?_⟩
          rw [joinCRLF_cons]
          calc ((l ++ CRLF) ++ joinCRLF (m :: ms)) ++ CRLF
              = (l ++ CRLF) ++ (joinCRLF (m :: ms) ++ CRLF) := by
                rw [List.append_assoc]
            _ = (l ++ CRLF) ++ (hd ++ TERM4) := by rw [hh]
            _ = ((l ++ CRLF) ++ hd) ++ TERM4 := by simp [List.append_assoc]

/-! ### Framing -/

theorem goodData_cons {ev : Rd} {evs : List Rd} (h : GoodData (ev :: evs)) :
    goodEv ev = true ∧ GoodData evs :=
  ⟨h ev (by simp), fun e he => h e (by simp [he])⟩

theorem concatData_nil : concatData [] = [] := rfl

theorem concatData_cons (ev : Rd) (evs : List Rd) :
    concatData (ev :: evs) = evBytes ev ++ concatData evs := by
  simp [concatData]

theorem rrHeader_exact {msg : List Nat} {e : Nat}
    (hf : findTerm msg = some e) (hcap : msg.length ≤ 64 * 1024) :
    ∀ (evs : List Rd) (buf : List Nat), GoodData evs →
      buf ++ concatData evs = msg → buf.length < e + 4 →
      ∃ buf2 rest, rrHeader buf evs = some (buf2, rest) ∧
        buf2 ++ concatData rest = msg ∧ e + 4 ≤ buf2.length ∧ GoodData rest := by
  intro evs
  induction evs with
  | nil =>
      intro buf _ hcat hlt
      exfalso
      rw [concatData_nil, List.append_nil] at hcat
      have := findTerm_length hf
      subst hcat
      omega
  | cons ev rest ih =>
      intro buf hgood hcat hlt
      obtain ⟨hge, hgr⟩ := goodData_cons hgood
      cases ev with
      | ioErr => simp [goodEv] at hge
      | data bs =>
          cases bs with
          | nil => simp [goodEv] at hge
          | cons b bs' =>
              have hcat2 : (buf ++ b :: bs') ++ concatData rest = msg := by
                rw [concatData_cons] at hcat
                simpa [List.append_assoc] using hcat
              have htake : msg.take (buf ++ b :: bs').length = buf ++ b :: bs' := by
                rw [← hcat2]
                exact List.take_left' rfl
              have hlen2 : (buf ++ b :: bs').length ≤ msg.length := by
                rw [← hcat2]
                simp
              by_cases hbig : 64 * 1024 < (buf ++ b :: bs').length
              · omega
              · by_cases hfound : e + 4 ≤ (buf ++ b :: bs').length
                · have hft : findTerm (buf ++ b :: bs') = some e := by
                    rw [← htake]
                    exact findTerm_take_eq hf hfound
                  refine ⟨buf ++ b :: bs', rest, ?_, hcat2, hfound, hgr⟩
                  simp only [rrHeader]
                  rw [if_neg hbig, hft]
                · have hft : findTerm (buf ++ b :: bs') = none := by
                    rw [← htake]
                    exact findTerm_take_none hf (by omega)
                  obtain ⟨b2, r2, h1, h2, h3, h4⟩ :=
                    ih (buf ++ b :: bs') hgr hcat2 (by omega)
                  refine ⟨b2, r2, ?_, h2, h3, h4⟩
                  simp only [rrHeader]
                  rw [if_neg hbig, hft]
                  exact h1

theorem bodyLoop_exact {msg : List Nat} :
    ∀ (evs : List Rd) (buf : List Nat), GoodData evs →
      buf ++ concatData evs = msg → bodyLoop buf msg.length evs = some msg := by
  intro evs
  induction evs with
  | nil =>
      intro buf _ hcat
      rw [concatData_nil, List.append_nil] at hcat
      subst hcat
      rw [bodyLoop]
      simp
  | cons ev rest ih =>
      intro buf hgood hcat
      obtain ⟨hge, hgr⟩ := goodData_cons hgood
      cases ev with
      | ioErr => simp [goodEv] at hge
      | data bs =>
          cases bs with
          | nil => simp [goodEv] at hge
          | cons b bs' =>
              have hcat2 : (buf ++ b :: bs') ++ concatData rest = msg := by
                rw [concatData_cons] at hcat
                simpa [List.append_assoc] using hcat
              have hlt : buf.length < msg.length := by
                have := congrArg List.length hcat2
                simp [List.length_append] at this
                omega
              rw [bodyLoop, if_pos hlt]
              exact ih (buf ++ b :: bs') hgr hcat2

theorem readRequest_exact {evs : List Rd} {msg : List Nat} {e : Nat}
    (hgood : GoodData evs) (hcat : concatData evs = msg)
    (hterm : findTerm msg = some e) (hcap : msg.length ≤ 64 * 1024)
    (hlen : msg.length = e + 4 + contentLengthOrZero (msg.take e)) :
    readRequest evs = some msg := by
  have h0 : ([] : List Nat) ++ concatData evs = msg := by simpa using hcat
  obtain ⟨buf2, rest, h1, h2, h3, h4⟩ :=
    rrHeader_exact hterm hcap evs [] hgood h0 (by simp)
  have htake : msg.take buf2.length = buf2 := by
    rw [← h2]
    exact List.take_left' rfl
  have hft2 : findTerm buf2 = some e := by
    rw [← htake]
    exact findTerm_take_eq hterm h3
  have hhead : buf2.take e = msg.take e := by
    rw [← htake, List.take_take, Nat.min_eq_left (by omega)]
  have hbody := bodyLoop_exact rest buf2 h4 h2
  simp only [readRequest, h1, hft2]
  rw [hhead, ← hlen]
  exact hbody

theorem rrHeader_none :
    ∀ (evs : List Rd) (buf : List Nat),
      findTerm (buf ++ concatData evs) = none → rrHeader buf evs = none := by
  intro evs
  induction evs with
  | nil => intro buf _; rfl
  | cons ev rest ih =>
      intro buf h
      cases ev with
      | ioErr => rfl
      | data bs =>
          cases bs with
          | nil => rfl
          | cons b bs' =>
              have hcat : buf ++ concatData (Rd.data (b :: bs') :: rest) =
                  (buf ++ b :: bs') ++ concatData rest := by
                rw [concatData_cons]
                simp [evBytes, List.append_assoc]
              rw [hcat] at h
              have hft : findTerm (buf ++ b :: bs') = none := by
                have heq : buf ++ b :: bs' =
                    ((buf ++ b :: bs') ++ concatData rest).take
                      (buf ++ b :: bs').length := (List.take_left' rfl).symm
                rw [heq]
                exact findTerm_none_take h
              by_cases hbig : 64 * 1024 < (buf ++ b :: bs').length
              · simp only [rrHeader]
                rw [if_pos hbig]
              · simp only [rrHeader]
                rw [if_neg hbig, hft]
                exact ih (buf ++ b :: bs') h

theorem fwdHeader_exact {msg : List Nat} {e : Nat}
    (hf : findTerm msg = some e) (hcap : msg.length ≤ 64 * 1024) :
    ∀ (evs : List Rd) (buf : List Nat), GoodData evs →
      buf ++ concatData evs = msg → buf.length < e + 4 →
      ∃ buf2 rest, fwdHeader buf evs = HdrOut.found buf2 rest ∧
        buf2 ++ concatData rest = msg ∧ e + 4 ≤ buf2.length ∧ GoodData rest := by
  intro evs
  induction evs with
  | nil =>
      intro buf _ hcat hlt
      exfalso
      rw [concatData_nil, List.append_nil] at hcat
      have := findTerm_length hf
      subst hcat
      omega
  | cons ev rest ih =>
      intro buf hgood hcat hlt
      obtain ⟨hge, hgr⟩ := goodData_cons hgood
      cases ev with
      | ioErr => simp [goodEv] at hge
      | data bs =>
          cases bs with
          | nil => simp [goodEv] at hge
          | cons b bs' =>
              have hcat2 : (buf ++ b :: bs') ++ concatData rest = msg := by
                rw [concatData_cons] at hcat
                simpa [List.append_assoc] using hcat
              have htake : msg.take (buf ++ b :: bs').length = buf ++ b :: bs' := by
                rw [← hcat2]
                exact List.take_left' rfl
              have hlen2 : (buf ++ b :: bs').length ≤ msg.length := by
                rw [← hcat2]
                simp
              by_cases hbig : 64 * 1024 < (buf ++ b :: bs').length
              · omega
              · by_cases hfound : e + 4 ≤ (buf ++ b :: bs').length
                · have hft : findTerm (buf ++ b :: bs') = some e := by
                    rw [← htake]
                    exact findTerm_take_eq hf hfound
                  refine ⟨buf ++ b :: bs', rest, ?_, hcat2, hfound, hgr⟩
                  simp only [fwdHeader]
                  rw [if_neg hbig, hft]
                · have hft : findTerm (buf ++ b :: bs') = none := by
                    rw [← htake]
                    exact findTerm_take_none hf (by omega)
                  obtain ⟨b2, r2, h1, h2, h3, h4⟩ :=
                    ih (buf ++ b :: bs') hgr hcat2 (by omega)
                  refine ⟨b2, r2, ?_, h2, h3, h4⟩
                  simp only [fwdHeader]
                  rw [if_neg hbig, hft]
                  exact h1

theorem fwdHeader_early_big :
    ∀ (evs : List Rd) (buf : List Nat), GoodData evs →
      findTerm (buf ++ concatData evs) = none →
      buf.length ≤ 64 * 1024 → 64 * 1024 < (buf ++ concatData evs).length →
      ∃ r, fwdHeader buf evs = HdrOut.early r ∧ 64 * 1024 < r.length := by
  intro evs
  induction evs with
  | nil =>
      intro buf _ _ hle hbig
      exfalso
      rw [concatData_nil, List.append_nil] at hbig
      omega
  | cons ev rest ih =>
      intro buf hgood hnone hle hbig
      obtain ⟨hge, hgr⟩ := goodData_cons hgood
      cases ev with
      | ioErr => simp [goodEv] at hge
      | data bs =>
          cases bs with
          | nil => simp [goodEv] at hge
          | cons b bs' =>
              have hcat : buf ++ concatData (Rd.data (b :: bs') :: rest) =
                  (buf ++ b :: bs') ++ concatData rest := by
                rw [concatData_cons]
                simp [evBytes, List.append_assoc]
              rw [hcat] at hnone hbig
              by_cases hbig2 : 64 * 1024 < (buf ++ b :: bs').length
              · refine ⟨buf ++ b :: bs', ?_, hbig2⟩
                simp only [fwdHeader]
                rw [if_pos hbig2]
              · have hft : findTerm (buf ++ b :: bs') = none := by
                  have heq : buf ++ b :: bs' =
                      ((buf ++ b :: bs') ++ concatData rest).take
                        (buf ++ b :: bs').length := (List.take_left' rfl).symm
                  rw [heq]
                  exact findTerm_none_take hnone
                obtain ⟨r, h1, h2⟩ :=
                  ih (buf ++ b :: bs') hgr hnone (by omega) hbig
                refine ⟨r, ?_, h2⟩
                simp only [fwdHeader]
                rw [if_neg hbig2, hft]
                exact h1

theorem clFold_rel :
    ∀ (lines : List (List Nat)) (a : Option Nat),
      lines.foldl clStep0 (a.getD 0) = (lines.foldl clStepOpt a).getD 0 := by
  intro lines
  induction lines with
  | nil => intro a; rfl
  | cons l ls ih =>
      intro a
      rw [List.foldl_cons, List.foldl_cons]
      by_cases h : isCLline l = true
      · cases hv : (splitOnByte 58 l)[1]? with
        | none =>
            have e1 : clStep0 (a.getD 0) l = a.getD 0 := by simp [clStep0, h, hv]
            have e2 : clStepOpt a l = a := by simp [clStepOpt, h, hv]
            rw [e1, e2]
            exact ih a
        | some v =>
            have e1 : clStep0 (a.getD 0) l = (parseUsize (trimAscii v)).getD 0 := by
              simp [clStep0, h, hv]
            have e2 : clStepOpt a l = parseUsize (trimAscii v) := by
              simp [clStepOpt, h, hv]
            rw [e1, e2]
            exact ih (parseUsize (trimAscii v))
      · have e1 : clStep0 (a.getD 0) l = a.getD 0 := by simp [clStep0, h]
        have e2 : clStepOpt a l = a := by simp [clStepOpt, h]
        rw [e1, e2]
        exact ih a

theorem contentLengthOrZero_of_opt {head : List Nat} {L : Nat}
    (h : contentLengthOpt head = some L) : contentLengthOrZero head = L := by
  have hrel := clFold_rel (splitCRLF head) none
  unfold contentLengthOpt at h
  unfold contentLengthOrZero
  simpa [h] using hrel

theorem fwdReadResponse_exact {evs : List Rd} {msg : List Nat} {e L : Nat}
    (hgood : GoodData evs) (hcat : concatData evs = msg)
    (hterm : findTerm msg = some e) (hcap : msg.length ≤ 64 * 1024)
    (hCL : contentLengthOpt (msg.take e) = some L)
    (hlen : msg.length = e + 4 + L) :
    fwdReadResponse evs = some msg := by
  have h0 : ([] : List Nat) ++ concatData evs = msg := by simpa using hcat
  obtain ⟨buf2, rest, h1, h2, h3, h4⟩ :=
    fwdHeader_exact hterm hcap evs [] hgood h0 (by simp)
  have htake : msg.take buf2.length = buf2 := by
    rw [← h2]
    exact List.take_left' rfl
  have hft2 : findTerm buf2 = some e := by
    rw [← htake]
    exact findTerm_take_eq hterm h3
  have hhead : buf2.take e = msg.take e := by
    rw [← htake, List.take_take, Nat.min_eq_left (by omega)]
  have hbody := bodyLoop_exact rest buf2 h4 h2
  simp only [fwdReadResponse, h1, hft2, hhead, hCL]
  rw [← hlen]
  exact hbody

/-- C4 (amended): when the stream delivers exactly the framed message —
header block, terminator, and a body of exactly the declared
`Content-Length` — both framers return it whole, and the body length
equals the declared value.  (The counterexample shows the original claim
fails when the stream ends early; a chunk crossing the declared end is
likewise kept whole.) -/
theorem c4_exact_framing (evs : List Rd) (msg : List Nat) (e L : Nat)
    (hgood : GoodData evs) (hcat : concatData evs = msg)
    (hterm : findTerm msg = some e) (hcap : msg.length ≤ 64 * 1024)
    (hCL : contentLengthOpt (msg.take e) = some L)
    (hlen : msg.length = e + 4 + L) :
    readRequest evs = some msg ∧ fwdReadResponse evs = some msg ∧
      (msg.drop (e + 4)).length = L := by
  have hz : contentLengthOrZero (msg.take e) = L := contentLengthOrZero_of_opt hCL
  refine ⟨readRequest_exact hgood hcat hterm hcap (by rw [hz]; exact hlen),
    fwdReadResponse_exact hgood hcat hterm hcap hCL hlen, ?_⟩
  simp only [List.length_drop]
  omega

/-- C4 is false as stated: `reqShort` declares `Content-Length: 5` but
its stream ends after 2 body bytes; `read_request` still returns it as a
message whose body has 2 bytes, not 5. -/
theorem c4_counterexample :
    readRequest [Rd.data reqShort] = some reqShort ∧
      contentLengthOrZero (reqShort.take 34) = 5 ∧
      (reqShort.drop (34 + 4)).length = 2 :=
  ⟨by decide, by decide, by decide⟩

/-- Witness for the amended C4 at a complete POST request. -/
theorem c4_exact_framing_witness :
    readRequest [Rd.data reqPost] = some reqPost ∧
      fwdReadResponse [Rd.data reqPost] = some reqPost ∧
      (reqPost.drop (34 + 4)).length = 2 :=
  c4_exact_framing [Rd.data reqPost] reqPost 34 2 (by decide) (by decide)
    (by decide) (by decide) (by decide) (by decide)

/-- C5: when the client stream ends before a complete `\r\n\r\n` has
been observed, `read_request` returns no message (not an error) and
`handle_client` closes silently: no backend is selected (the shared
counter is untouched), nothing is sent to a backend, and no bytes are
written back to the client. -/
theorem c5_silent_close (pool : List String) (caddr : List Nat) (ctr : Nat)
    (clientEvs : List Rd) (env : NetEnv)
    (hterm : findTerm (concatData clientEvs) = none) :
    readRequest clientEvs = none ∧
      (handleClient pool caddr ctr clientEvs env).selected = none ∧
      (handleClient pool caddr ctr clientEvs env).sentToBackend = none ∧
      (handleClient pool caddr ctr clientEvs env).written = [] ∧
      (handleClient pool caddr ctr clientEvs env).counter = ctr := by
  have hrr : rrHeader [] clientEvs = none :=
    rrHeader_none clientEvs [] (by simpa using hterm)
  have hread : readRequest clientEvs = none := by
    simp [readRequest, hrr]
  refine ⟨hread, ?_, ?_, ?_, ?_⟩ <;> simp [handleClient, hread]

/-- Witness for C5 at a truncated request line. -/
theorem c5_silent_close_witness :
    readRequest [Rd.data (ascii "GET / HT")] = none ∧
      (handleClient BACKENDS addrA 5 [Rd.data (ascii "GET / HT")]
        ⟨true, true, []⟩).selected = none ∧
      (handleClient BACKENDS addrA 5 [Rd.data (ascii "GET / HT")]
        ⟨true, true, []⟩).sentToBackend = none ∧
      (handleClient BACKENDS addrA 5 [Rd.data (ascii "GET / HT")]
        ⟨true, true, []⟩).written = [] ∧
      (handleClient BACKENDS addrA 5 [Rd.data (ascii "GET / HT")]
        ⟨true, true, []⟩).counter = 5 :=
  c5_silent_close BACKENDS addrA 5 [Rd.data (ascii "GET / HT")]
    ⟨true, true, []⟩ (by decide)

theorem findTerm_rep97 : ∀ n : Nat, findTerm (List.replicate n 97) = none := by
  intro n
  induction n with
  | zero => rfl
  | succ m ih =>
      rw [List.replicate_succ]
      simp only [findTerm]
      rw [if_neg (by simp [TERM4]), ih]
      rfl

/-- C6 (amended): the two header loops share the terminator search and
the 64 KiB cap, but they are not the same function: on any error-free
stream whose bytes never contain the terminator and exceed 64 KiB,
`read_request` treats this as fatal (no message) while the response
reader of `forward_request` returns the oversized buffer as the
response. -/
theorem c6_framer_divergence (evs : List Rd)
    (hgood : GoodData evs) (hterm : findTerm (concatData evs) = none)
    (hbig : 64 * 1024 < (concatData evs).length) :
    readRequest evs = none ∧
      ∃ r, fwdReadResponse evs = some r ∧ 64 * 1024 < r.length := by
  constructor
  · have hrr : rrHeader [] evs = none :=
      rrHeader_none evs [] (by simpa using hterm)
    simp [readRequest, hrr]
  · obtain ⟨r, h1, h2⟩ := fwdHeader_early_big evs [] hgood
      (by simpa using hterm) (by simp) (by simpa using hbig)
    exact ⟨r, by simp [fwdReadResponse, h1], h2⟩

/-- C6 is false as stated: on a 64 KiB + 1 chunk with no terminator,
`read_request` yields no message but the response reader returns the
oversized buffer as a message. -/
theorem c6_counterexample :
    readRequest [Rd.data bigChunk] = none ∧
      fwdReadResponse [Rd.data bigChunk] = some bigChunk ∧
      64 * 1024 < bigChunk.length := by
  have hbig2 :
      64 * 1024 < ([] ++ 97 :: List.replicate (64 * 1024) 97 : List Nat).length := by
    rw [List.nil_append, List.length_cons, List.length_replicate]
    omega
  refine ⟨?_, ?_, ?_⟩
  · show readRequest [Rd.data (97 :: List.replicate (64 * 1024) 97)] = none
    have hr : rrHeader [] [Rd.data (97 :: List.replicate (64 * 1024) 97)] = none := by
      rw [rrHeader, if_pos hbig2]
    rw [readRequest, hr]
  · show fwdReadResponse [Rd.data (97 :: List.replicate (64 * 1024) 97)] =
      some (97 :: List.replicate (64 * 1024) 97)
    have hf : fwdHeader [] [Rd.data (97 :: List.replicate (64 * 1024) 97)] =
        HdrOut.early ([] ++ 97 :: List.replicate (64 * 1024) 97) := by
      rw [fwdHeader, if_pos hbig2]
    rw [fwdReadResponse, hf]
    rfl
  · show 64 * 1024 < (97 :: List.replicate (64 * 1024) 97 : List Nat).length
    rw [List.length_cons, List.length_replicate]
    omega

/-- Witness for the amended C6 at the oversized chunk. -/
theorem c6_framer_divergence_witness :
    readRequest [Rd.data bigChunk] = none ∧
      ∃ r, fwdReadResponse [Rd.data bigChunk] = some r ∧ 64 * 1024 < r.length := by
  have hcd : concatData [Rd.data bigChunk] = 97 :: List.replicate (64 * 1024) 97 := by
    rw [concatData_cons, concatData_nil, List.append_nil]
    rfl
  refine c6_framer_divergence [Rd.data bigChunk] (by decide) ?_ ?_
  · rw [hcd, ← List.replicate_succ]
    exact findTerm_rep97 _
  · rw [hcd, List.length_cons, List.length_replicate]
    omega

theorem clFoldZero :
    ∀ lines : List (List Nat),
      (∀ l ∈ lines, isCLline l = true → clParseFails l = true) →
      lines.foldl clStep0 0 = 0 := by
  intro lines
  induction lines with
  | nil => intro _; rfl
  | cons l ls ih =>
      intro h
      rw [List.foldl_cons]
      have hstep : clStep0 0 l = 0 := by
        by_cases hl : isCLline l = true
        · have hf := h l (by simp) hl
          simp only [clParseFails] at hf
          cases hv : (splitOnByte 58 l)[1]? with
          | none => simp [clStep0, hl, hv]
          | some v =>
              rw [List.get?_eq_getElem?, hv] at hf
              simp only [Option.isNone_iff_eq_none] at hf
              simp [clStep0, hl, hv, hf]
        · simp [clStep0, hl]
      rw [hstep]
      exact ih (fun x hx => h x (by simp [hx]))

/-- C10: a framed request whose every `Content-Length` header line
carries an unparsable value is treated as declaring length 0: the framer
returns the message made of the header block it already read, and
`handle_client` selects a backend and forwards the rewritten request
instead of rejecting or erroring. -/
theorem c10_unparsable_content_length (pool : List String) (caddr : List Nat)
    (ctr : Nat) (evs : List Rd) (env : NetEnv) (msg : List Nat) (e : Nat)
    (hgood : GoodData evs) (hcat : concatData evs = msg)
    (hterm : findTerm msg = some e) (hcap : msg.length ≤ 64 * 1024)
    (hmsg : msg.length = e + 4)
    (hbad : ∀ l ∈ splitCRLF (msg.take e), isCLline l = true → clParseFails l = true)
    (hex : ∃ l ∈ splitCRLF (msg.take e), isCLline l = true)
    (hconn : env.connectOk = true) (hwrite : env.writeOk = true) :
    contentLengthOrZero (msg.take e) = 0 ∧
      readRequest evs = some msg ∧
      (handleClient pool caddr ctr evs env).selected =
        some (backendAt pool ctr, ctr + 1) ∧
      (handleClient pool caddr ctr evs env).sentToBackend =
        some (addXForwardedFor msg caddr) := by
  have hcl : contentLengthOrZero (msg.take e) = 0 := clFoldZero _ hbad
  have hread : readRequest evs = some msg :=
    readRequest_exact hgood hcat hterm hcap (by rw [hcl]; omega)
  refine ⟨hcl, hread, ?_, ?_⟩ <;>
    cases hfr : fwdReadResponse env.respEvs <;>
      simp [handleClient, hread, forwardRequest, hconn, hwrite, hfr,
        nextBackendWithCount, backendAt]

/-- Witness for C10 at a request declaring the non-numeric length abc. -/
theorem c10_unparsable_content_length_witness :
    contentLengthOrZero (reqBadCL.take 35) = 0 ∧
      readRequest [Rd.data reqBadCL] = some reqBadCL ∧
      (handleClient BACKENDS addrA 0 [Rd.data reqBadCL]
          ⟨true, true, []⟩).selected = some (backendAt BACKENDS 0, 0 + 1) ∧
      (handleClient BACKENDS addrA 0 [Rd.data reqBadCL]
          ⟨true, true, []⟩).sentToBackend =
        some (addXForwardedFor reqBadCL addrA) :=
  c10_unparsable_content_length BACKENDS addrA 0 [Rd.data reqBadCL]
    ⟨true, true, []⟩ reqBadCL 35 (by decide) (by decide) (by decide)
    (by decide) (by decide) (by decide) (by decide) rfl rfl

/-! ### Forwarder termination behaviour -/

theorem lab05Collect_eq :
    ∀ (evs : List Rd5) (acc : List Nat),
      lab05Collect acc evs = acc ++ dataLead evs := by
  intro evs
  induction evs with
  | nil => intro acc; simp [lab05Collect, dataLead]
  | cons ev rest ih =>
      intro acc
      cases ev with
      | ioErr => simp [lab05Collect, dataLead]
      | timeOut => simp [lab05Collect, dataLead]
      | data bs =>
          cases bs with
          | nil => simp [lab05Collect, dataLead]
          | cons b bs' =>
              rw [lab05Collect, ih (acc ++ b :: bs')]
              simp [dataLead, List.append_assoc]

theorem bodyLoop_some :
    ∀ (evs : List Rd) (buf : List Nat) (expected : Nat), GoodData evs →
      ∃ r, bodyLoop buf expected evs = some r := by
  intro evs
  induction evs with
  | nil =>
      intro buf expected _
      by_cases h : buf.length < expected
      · exact ⟨buf, by simp [bodyLoop.eq_def, h]⟩
      · exact ⟨buf, by simp [bodyLoop.eq_def, h]⟩
  | cons ev rest ih =>
      intro buf expected hgood
      obtain ⟨hge, hgr⟩ := goodData_cons hgood
      by_cases h : buf.length < expected
      · cases ev with
        | ioErr => simp [goodEv] at hge
        | data bs =>
            cases bs with
            | nil => simp [goodEv] at hge
            | cons b bs' =>
                obtain ⟨r, hr⟩ := ih (buf ++ b :: bs') expected hgr
                refine ⟨r, ?_⟩
                rw [bodyLoop, if_pos h]
                exact hr
      · exact ⟨buf, by simp [bodyLoop.eq_def, h]⟩

theorem fwdHeader_cases :
    ∀ (evs : List Rd) (buf : List Nat), GoodData evs →
      (∃ r, fwdHeader buf evs = HdrOut.early r) ∨
        (∃ b2 rest2, fwdHeader buf evs = HdrOut.found b2 rest2 ∧
          GoodData rest2 ∧ (findTerm b2).isSome = true) := by
  intro evs
  induction evs with
  | nil => intro buf _; left; exact ⟨buf, rfl⟩
  | cons ev rest ih =>
      intro buf hgood
      obtain ⟨hge, hgr⟩ := goodData_cons hgood
      cases ev with
      | ioErr => simp [goodEv] at hge
      | data bs =>
          cases bs with
          | nil => simp [goodEv] at hge
          | cons b bs' =>
              by_cases hbig : 64 * 1024 < (buf ++ b :: bs').length
              · left
                refine ⟨buf ++ b :: bs', ?_⟩
                rw [fwdHeader, if_pos hbig]
              · cases hft : findTerm (buf ++ b :: bs') with
                | some e2 =>
                    right
                    refine ⟨buf ++ b :: bs', rest, ?_, hgr, by simp [hft]⟩
                    rw [fwdHeader, if_neg hbig, hft]
                | none =>
                    rcases ih (buf ++ b :: bs') hgr with ⟨r, hr⟩ | ⟨b2, r2, hr, hg2, hs2⟩
                    · left
                      refine ⟨r, ?_⟩
                      rw [fwdHeader, if_neg hbig, hft]
                      exact hr
                    · right
                      refine ⟨b2, r2, ?_, hg2, hs2⟩
                      rw [fwdHeader, if_neg hbig, hft]
                      exact hr

theorem fwdReadResponse_some (evs : List Rd) (hgood : GoodData evs) :
    ∃ r, fwdReadResponse evs = some r := by
  rcases fwdHeader_cases evs [] hgood with ⟨r, hr⟩ | ⟨b2, r2, hr, hg2, hs2⟩
  · exact ⟨r, by rw [fwdReadResponse, hr]⟩
  · obtain ⟨e2, hft⟩ := Option.isSome_iff_exists.mp hs2
    cases hcl : contentLengthOpt (b2.take e2) with
    | some len =>
        obtain ⟨r, hr2⟩ := bodyLoop_some r2 b2 (e2 + 4 + len) hg2
        refine ⟨r, ?_⟩
        simp only [fwdReadResponse, hr, hft, hcl]
        exact hr2
    | none =>
        refine ⟨b2 ++ drainData r2, ?_⟩
        simp only [fwdReadResponse, hr, hft, hcl]

/-- C7 (amended): in lab 5 the response loop stops at the first timeout,
error, end of stream, or `Ok(0)`, keeps the bytes read so far, and
returns `None` (a `ForwardError`, hence a 502) exactly when that buffer
is empty; in lab 6 the forwarder instead returns `Some` for every
error-free response stream — including `Some` of the empty buffer when
zero bytes were received, so the client gets an empty response rather
than a 502. -/
theorem c7_partial_vs_empty (evs5 : List Rd5) (evs6 : List Rd)
    (hgood : GoodData evs6) :
    lab05ForwardRead evs5 =
      (if dataLead evs5 = [] then none else some (dataLead evs5)) ∧
      ∃ r, fwdReadResponse evs6 = some r := by
  constructor
  · unfold lab05ForwardRead
    rw [lab05Collect_eq evs5 []]
    simp only [List.nil_append]
    by_cases h : dataLead evs5 = []
    · simp [h]
    · simp [h]
  · exact fwdReadResponse_some evs6 hgood

/-- C7 is false as stated for lab 6: a backend that closes without
sending any byte yields `Some []`, not a `ForwardError`, and the client
receives an empty response instead of the 502 message. -/
theorem c7_counterexample :
    fwdReadResponse [] = some [] ∧
      (handleClient BACKENDS addrA 0 [Rd.data reqPlain]
        ⟨true, true, []⟩).written = [] ∧
      gateway502 ≠ [] :=
  ⟨rfl, by decide, by decide⟩

/-- Witness for the amended C7: a partial then timed-out lab 5 stream,
and a complete lab 6 response stream. -/
theorem c7_partial_vs_empty_witness :
    lab05ForwardRead [Rd5.data (ascii "hi"), Rd5.timeOut] =
      (if dataLead [Rd5.data (ascii "hi"), Rd5.timeOut] = [] then none
        else some (dataLead [Rd5.data (ascii "hi"), Rd5.timeOut])) ∧
      ∃ r, fwdReadResponse [Rd.data respOk] = some r :=
  c7_partial_vs_empty [Rd5.data (ascii "hi"), Rd5.timeOut]
    [Rd.data respOk] (by decide)

/-! ### Synthesized 502 response -/

theorem specShape_getElem34 (msg : List Nat) :
    (specGatewayShape msg)[34]? = some 84 := by
  unfold specGatewayShape
  rw [List.getElem?_append_left (by decide)]
  decide

/-- C3 (amended): lab 5's `error_response` at status 502 produces exactly
the spec's verbatim shape with `Content-Length` equal to the byte length
of the message; lab 6's fixed failure response has an accurate
`Content-Length` (11, the length of its `Bad Gateway` body, which
follows the terminator at offset 44) but omits the `Content-Type` and
`Connection` headers, so it does not have the spec's shape. -/
theorem c3_amended_error_shape :
    (∀ msg : List Nat, errorResponse 502 msg = specGatewayShape msg) ∧
      findTerm gateway502 = some 44 ∧
      contentLengthOrZero (gateway502.take 44) = 11 ∧
      (gateway502.drop 48).length = 11 := by
  refine ⟨?_, by decide, by decide, by decide⟩
  intro msg
  unfold errorResponse specGatewayShape
  have h502 : natToDec 502 = [53, 48, 50] := by decide
  have hreason : errorReason 502 = ascii "Bad Gateway" := by decide
  rw [h502, hreason]
  simp only [← List.append_assoc]
  congr 1

/-- C3 is false as stated: on a forwarding failure lab 6 writes its fixed
502 bytes, and no message makes the spec's verbatim shape equal to them
(byte 34 is `T` of `Content-Type` in the shape but `L` of
`Content-Length` in lab 6's bytes). -/
theorem c3_counterexample :
    (handleClient BACKENDS addrA 0 [Rd.data reqPlain]
        ⟨false, false, []⟩).written = gateway502 ∧
      ¬ ∃ msg, specGatewayShape msg = gateway502 := by
  constructor
  · decide
  · rintro ⟨msg, hmsg⟩
    have h34 := specShape_getElem34 msg
    rw [hmsg] at h34
    have h76 : (gateway502)[34]? = some 76 := by decide
    rw [h76] at h34
    exact absurd h34 (by decide)

/-! ### Byte-for-byte relaying -/

theorem rewriteLines_headI (addr : List Nat) (ls : List (List Nat))
    (hne : ls ≠ []) (h : isXff ls.headI = false) :
    (rewriteLines addr ls).headI = ls.headI := by
  cases ls with
  | nil => exact absurd rfl hne
  | cons l ls =>
      have hx : isXff l = false := h
      simp [rewriteLines, hx]

/-- C8: on a successful exchange, lab 6 delivers to the backend exactly
the rewritten request; the rewritten request is some header block
followed by the terminator and the original body byte-for-byte; the
first header line is unchanged whenever the start line does not itself
match `x-forwarded-for:`; and the bytes written back to the client are
exactly the response bytes the forwarder read. -/
theorem c8_byte_preservation (pool : List String) (caddr : List Nat)
    (ctr : Nat) (clientEvs : List Rd) (env : NetEnv) (req r : List Nat)
    (e : Nat) (hreq : readRequest clientEvs = some req)
    (hterm : findTerm req = some e)
    (hconn : env.connectOk = true) (hwrite : env.writeOk = true)
    (hresp : fwdReadResponse env.respEvs = some r) :
    (handleClient pool caddr ctr clientEvs env).sentToBackend =
        some (addXForwardedFor req caddr) ∧
      (∃ hd, addXForwardedFor req caddr = hd ++ TERM4 ++ req.drop (e + 4)) ∧
      (isXff ((splitCRLF (req.take e)).headI) = false →
        (rewriteLines caddr (splitCRLF (req.take e))).headI =
          (splitCRLF (req.take e)).headI) ∧
      (handleClient pool caddr ctr clientEvs env).written = r := by
  refine ⟨?_, ?_, ?_, ?_⟩
  · simp [handleClient, hreq, forwardRequest, hconn, hwrite, hresp]
  · obtain ⟨hd, hh⟩ := joinCRLF_term (rewriteLines caddr (splitCRLF (req.take e)))
      (rewriteLines_ne_nil caddr _)
    refine ⟨hd, ?_⟩
    rw [addXFF_eq req caddr hterm, hh]
  · intro hstart
    exact rewriteLines_headI caddr _ (splitCRLF_ne_nil _) hstart
  · simp [handleClient, hreq, forwardRequest, hconn, hwrite, hresp]

/-- Witness for C8: a complete POST round-trips through `handle_client`
against a backend answering `respOk`. -/
theorem c8_byte_preservation_witness :
    (handleClient BACKENDS addrA 0 [Rd.data reqPost]
        ⟨true, true, [Rd.data respOk]⟩).sentToBackend =
      some (addXForwardedFor reqPost addrA) ∧
      (∃ hd, addXForwardedFor reqPost addrA =
        hd ++ TERM4 ++ reqPost.drop (34 + 4)) ∧
      (isXff ((splitCRLF (reqPost.take 34)).headI) = false →
        (rewriteLines addrA (splitCRLF (reqPost.take 34))).headI =
          (splitCRLF (reqPost.take 34)).headI) ∧
      (handleClient BACKENDS addrA 0 [Rd.data reqPost]
        ⟨true, true, [Rd.data respOk]⟩).written = respOk :=
  c8_byte_preservation BACKENDS addrA 0 [Rd.data reqPost]
    ⟨true, true, [Rd.data respOk]⟩ reqPost respOk 34 (by decide) (by decide)
    rfl rfl (by decide)
